import Mathlib

/-!
# Verification of the xiaomusic playback-orchestration core

A shallow embedding, in Lean 4, of the parts of `xiaomusic` (a voice-driven
playback orchestrator for networked speakers) that its specification makes
claims about:

* `XiaoMusicDevice.get_music` — next/previous track selection with lazy
  pruning of catalog-missing tracks (`xiaomusic.py`);
* `XiaoMusicDevice.update_playlist` and the non-exact branch of
  `XiaoMusicDevice._play` — materialization of the working playlist and the
  temporary search list;
* `XiaoMusic.refresh_custom_play_list` — merging custom playlists into the
  shared playlist namespace;
* `XiaoMusic.match_cmd` / `check_full_match_cmd` — the keyword-to-intent
  matcher;
* `XiaoMusic.find_real_music_name` / `utils.find_best_match` — the fuzzy
  title resolver;
* the fan-out failure handling of `XiaoMusicDevice._playmusic`;
* the per-device timer discipline (`set_next_music_timeout`,
  `cancel_next_timer`, `cancel_group_next_timer`, `stop`,
  `stop_after_minute`), modelled as a state machine.

Python dictionaries are modelled as association lists with
insertion-order/overwrite semantics, fallible lookups as `Option`, and the
asyncio timer tasks as an explicit transition system.  External
collaborators (the catalog-existence predicate, `difflib` similarity
ratios, `random.shuffle`, OpenCC normalization) are taken as function
parameters, since they live outside the repository.
-/

namespace XiaoMusic

/-! ## Python-style association lists (`dict`) -/

/-- `d.get(q)` on a Python `dict` modelled as an association list
(keys are unique in any list built by `dictInsert`). -/
def dictGet {β : Type} : List (String × β) → String → Option β
  | [], _ => none
  | (k, v) :: rest, q => if k = q then some v else dictGet rest q

/-- `d[k] = v` on a Python `dict`: replace the value in place if the key is
present (keeping its position in iteration order), else append. -/
def dictInsert {β : Type} : List (String × β) → String → β → List (String × β)
  | [], k, v => [(k, v)]
  | (k0, v0) :: rest, k, v =>
    if k0 = k then (k0, v) :: rest else (k0, v0) :: dictInsert rest k v

/-- The keys of an association list, in iteration order. -/
def dictKeys {β : Type} (d : List (String × β)) : List String :=
  d.map Prod.fst

theorem dictGet_dictInsert_self {β : Type} (d : List (String × β)) (k : String) (v : β) :
    dictGet (dictInsert d k v) k = some v := by
  induction d with
  | nil => simp [dictInsert, dictGet]
  | cons hd tl ih =>
    obtain ⟨k0, v0⟩ := hd
    by_cases h : k0 = k <;> simp [dictInsert, dictGet, h, ih]

theorem dictGet_dictInsert_ne {β : Type} (d : List (String × β)) (k k' : String) (v : β)
    (h : k ≠ k') : dictGet (dictInsert d k v) k' = dictGet d k' := by
  induction d with
  | nil => simp [dictInsert, dictGet, h]
  | cons hd tl ih =>
    obtain ⟨k0, v0⟩ := hd
    by_cases h0 : k0 = k
    · subst h0
      simp [dictInsert, dictGet, h]
    · simp [dictInsert, dictGet, h0, ih]

/-! ## Python `list.index`, substring test, and stable sort -/

/-- Index of the first occurrence of `x` (`list.index`, as `Option`). -/
def listIndex {α : Type} [DecidableEq α] (x : α) : List α → Option Nat
  | [] => none
  | y :: ys => if y = x then some 0 else (listIndex x ys).map (· + 1)

theorem listIndex_lt_length {α : Type} [DecidableEq α] (x : α) (l : List α) (i : Nat)
    (h : listIndex x l = some i) : i < l.length := by
  induction l generalizing i with
  | nil => simp [listIndex] at h
  | cons y ys ih =>
    by_cases hy : y = x
    · simp [listIndex, hy] at h
      simp only [List.length_cons]
      omega
    · simp [listIndex, hy] at h
      obtain ⟨j, hj, rfl⟩ := h
      have := ih j hj
      simp only [List.length_cons]
      omega

theorem listIndex_get {α : Type} [DecidableEq α] (x : α) (l : List α) (i : Nat)
    (h : listIndex x l = some i) (hi : i < l.length) : l.get ⟨i, hi⟩ = x := by
  induction l generalizing i with
  | nil => simp [listIndex] at h
  | cons y ys ih =>
    by_cases hy : y = x
    · simp [listIndex, hy] at h
      subst h
      simpa using hy
    · simp [listIndex, hy] at h
      obtain ⟨j, hj, rfl⟩ := h
      simpa using ih j hj (by simpa using Nat.lt_of_succ_lt_succ hi)

theorem listIndex_isSome_of_mem {α : Type} [DecidableEq α] {x : α} {l : List α}
    (h : x ∈ l) : (listIndex x l).isSome := by
  induction l with
  | nil => simp at h
  | cons y ys ih =>
    by_cases hy : y = x
    · simp [listIndex, hy]
    · have : x ∈ ys := by
        rcases List.mem_cons.mp h with h1 | h1
        · exact absurd h1.symm hy
        · exact h1
      have := ih this
      simp [listIndex, hy, Option.isSome_map]
      exact this

theorem listIndex_of_nodup_get {α : Type} [DecidableEq α] (l : List α) (hl : l.Nodup)
    (i : Nat) (hi : i < l.length) : listIndex (l.get ⟨i, hi⟩) l = some i := by
  induction l generalizing i with
  | nil => simp at hi
  | cons y ys ih =>
    rcases List.nodup_cons.mp hl with ⟨hy, hys⟩
    cases i with
    | zero => simp [listIndex]
    | succ j =>
      have hj : j < ys.length := by simpa using Nat.lt_of_succ_lt_succ hi
      have hmem : ys.get ⟨j, hj⟩ ∈ ys := List.get_mem ys j hj
      have hne : y ≠ ys.get ⟨j, hj⟩ := by
        intro he
        exact hy (he ▸ hmem)
      have hrec := ih hys j hj
      simp only [List.get_eq_getElem] at hne hrec ⊢
      simp [listIndex, List.getElem_cons_succ, hne, hrec]

/-- `needle in haystack` on Python strings (substring containment),
modelled on the character lists. -/
def charSubstr (needle haystack : List Char) : Bool :=
  match haystack with
  | [] => needle.isEmpty
  | _ :: rest => needle.isPrefixOf haystack || charSubstr needle rest

def pySubstr (needle haystack : String) : Bool :=
  charSubstr needle.data haystack.data

theorem charSubstr_self (l : List Char) : charSubstr l l = true := by
  cases l with
  | nil => simp [charSubstr, List.isEmpty]
  | cons c rest => simp [charSubstr, List.isPrefixOf_iff_prefix]

theorem pySubstr_self (s : String) : pySubstr s s = true :=
  charSubstr_self s.data

/-- Stable insertion used to model Python's stable `sorted`:
`x` goes in front of the first element it compares `le` to. -/
def pyInsert {α : Type} (le : α → α → Bool) (x : α) : List α → List α
  | [] => [x]
  | y :: ys => if le x y then x :: y :: ys else y :: pyInsert le x ys

/-- Python `sorted(l, key=...)` modelled as a stable insertion sort (Python's
timsort is stable; only stability and the ordering matter to the source). -/
def pySort {α : Type} (le : α → α → Bool) : List α → List α
  | [] => []
  | x :: xs => pyInsert le x (pySort le xs)

theorem pyInsert_perm {α : Type} (le : α → α → Bool) (x : α) (l : List α) :
    (pyInsert le x l).Perm (x :: l) := by
  induction l with
  | nil => simp [pyInsert]
  | cons y ys ih =>
    by_cases h : le x y
    · simp [pyInsert, h]
    · simp only [pyInsert, h, if_false]
      exact List.Perm.trans (List.Perm.cons y ih) (List.Perm.swap x y ys)

theorem pySort_perm {α : Type} (le : α → α → Bool) (l : List α) :
    (pySort le l).Perm l := by
  induction l with
  | nil => simp [pySort]
  | cons x xs ih =>
    exact ((pyInsert_perm le x (pySort le xs)).trans (List.Perm.cons x ih))

theorem pyInsert_mem {α : Type} (le : α → α → Bool) (x : α) (l : List α) (b : α)
    (hb : b ∈ pyInsert le x l) : b = x ∨ b ∈ l :=
  List.mem_cons.mp ((pyInsert_perm le x l).mem_iff.mp hb)

theorem pyInsert_pairwise {α : Type} (le : α → α → Bool)
    (htrans : ∀ a b c, le a b = true → le b c = true → le a c = true)
    (htot : ∀ a b, le a b || le b a) (x : α) (l : List α)
    (hl : l.Pairwise (fun a b => le a b = true)) :
    (pyInsert le x l).Pairwise (fun a b => le a b = true) := by
  induction l with
  | nil => simp [pyInsert]
  | cons y ys ih =>
    rcases List.pairwise_cons.mp hl with ⟨hy, hys⟩
    by_cases h : le x y = true
    · rw [show pyInsert le x (y :: ys) = x :: y :: ys by simp [pyInsert, h]]
      refine List.pairwise_cons.mpr ⟨?_, hl⟩
      intro b hb
      rcases List.mem_cons.mp hb with rfl | hb
      · exact h
      · exact htrans x y b h (hy b hb)
    · have hyx : le y x = true := by
        have := htot x y
        rcases Bool.or_eq_true_iff.mp this with h1 | h1
        · exact absurd h1 h
        · exact h1
      rw [show pyInsert le x (y :: ys) = y :: pyInsert le x ys by simp [pyInsert, h]]
      refine List.pairwise_cons.mpr ⟨?_, ih hys⟩
      intro b hb
      rcases pyInsert_mem le x ys b hb with rfl | hb
      · exact hyx
      · exact hy b hb

/-- In a pairwise-`le` list, the head is `le` every member. -/
theorem pairwise_head_le {α : Type} (le : α → α → Bool) (x : α) (l : List α)
    (hl : (x :: l).Pairwise (fun a b => le a b = true)) (b : α) (hb : b ∈ x :: l) :
    x = b ∨ le x b = true := by
  rcases List.mem_cons.mp hb with rfl | hb
  · exact Or.inl rfl
  · exact Or.inr ((List.pairwise_cons.mp hl).1 b hb)

/-! ## Play-mode constants (`const.py`) -/

def PLAY_TYPE_ONE : Nat := 0
def PLAY_TYPE_ALL : Nat := 1
def PLAY_TYPE_RND : Nat := 2
def PLAY_TYPE_SIN : Nat := 3
def PLAY_TYPE_SEQ : Nat := 4

/-! ## `XiaoMusicDevice.get_music` (next/previous track selection)

The Python method reads `self._play_list`, `self.device.play_type`, the
current track `self.get_cur_music()` and the catalog predicate
`self.xiaomusic.is_music_exist`; it may pop a missing track from
`self._play_list` and recurse.  We embed it as a function from the playlist
to the (possibly pruned) playlist together with the returned name, with the
catalog predicate `ex` as a parameter. -/

/-- The index arithmetic of `get_music` (the body between the
`play_list_len == 1` shortcut and the list access): `none` models an early
`return ""` (sequential mode hitting the end of the list, or an invalid
direction string). -/
def compute_new_index (play_type : Nat) (dir : String) (len index : Nat) : Option Nat :=
  if len = 1 then some index
  else if dir = "next" then
    if play_type = PLAY_TYPE_SEQ ∧ len ≤ index + 1 then none
    else if len ≤ index + 1 then some 0
    else some (index + 1)
  else if dir = "prev" then
    -- Python computes `index - 1` on ints and wraps `-1` to `len - 1`
    if index = 0 then some (len - 1) else some (index - 1)
  else none

theorem compute_new_index_lt (play_type : Nat) (dir : String) (len index : Nat)
    (hlen : 0 < len) (hidx : index < len) (ni : Nat)
    (h : compute_new_index play_type dir len index = some ni) : ni < len := by
  unfold compute_new_index at h
  by_cases h1 : len = 1
  · simp [h1] at h
    omega
  · simp only [h1, if_false] at h
    by_cases h2 : dir = "next"
    · simp only [h2, if_true] at h
      by_cases h3 : play_type = PLAY_TYPE_SEQ ∧ len ≤ index + 1
      · simp [h3] at h
      · simp only [h3, if_false] at h
        by_cases h4 : len ≤ index + 1
        · simp [h4] at h
          omega
        · simp [h4] at h
          omega
    · simp only [h2, if_false] at h
      by_cases h5 : dir = "prev"
      · simp only [h5, if_true] at h
        by_cases h6 : index = 0
        · simp [h6] at h
          omega
        · simp [h6] at h
          omega
      · simp [h5] at h

/-- `get_music` with explicit recursion fuel (the recursion removes one
element of the playlist per step, so `pl.length` fuel always suffices). -/
def get_music_fuel (ex : String → Bool) (play_type : Nat) (dir : String) (cur : String) :
    Nat → List String → List String × String
  | 0, pl => (pl, "")
  | fuel + 1, pl =>
    if pl.length = 0 then (pl, "")
    else
      match compute_new_index play_type dir pl.length ((listIndex cur pl).getD 0) with
      | none => (pl, "")
      | some ni =>
        let name := pl.getD ni ""
        if ex name then (pl, name)
        else get_music_fuel ex play_type dir cur fuel (pl.eraseIdx ni)

/-- `XiaoMusicDevice.get_music(direction)`: first component is the playlist
after any pruning of catalog-missing tracks, second is the returned name
(`""` means "no track"). -/
def get_music (ex : String → Bool) (play_type : Nat) (dir : String) (cur : String)
    (pl : List String) : List String × String :=
  get_music_fuel ex play_type dir cur pl.length pl

example :
    get_music (fun _ => true) PLAY_TYPE_ALL "next" "a" ["a", "b", "c"] =
      (["a", "b", "c"], "b") := by decide

example :
    get_music (fun _ => true) PLAY_TYPE_ALL "next" "c" ["a", "b", "c"] =
      (["a", "b", "c"], "a") := by decide

example :
    get_music (fun _ => true) PLAY_TYPE_SEQ "next" "c" ["a", "b", "c"] =
      (["a", "b", "c"], "") := by decide

example :
    get_music (fun _ => true) PLAY_TYPE_ALL "prev" "a" ["a", "b", "c"] =
      (["a", "b", "c"], "c") := by decide

example :
    get_music (fun n => n ≠ "b") PLAY_TYPE_ALL "next" "a" ["a", "b", "c"] =
      (["a", "c"], "c") := by decide

theorem compute_new_index_cyclic (pt : Nat) (len i : Nat) (hlen : 0 < len) (hi : i < len)
    (hpt : pt ≠ PLAY_TYPE_SEQ) :
    compute_new_index pt "next" len i = some ((i + 1) % len) := by
  unfold compute_new_index
  by_cases h1 : len = 1
  · subst h1
    have : i = 0 := by omega
    subst this
    simp
  · have hseq : ¬(pt = PLAY_TYPE_SEQ ∧ len ≤ i + 1) := fun h => hpt h.1
    by_cases h4 : len ≤ i + 1
    · have he : i + 1 = len := by omega
      simp [h1, hseq, h4, he, Nat.mod_self, hpt]
    · have he : (i + 1) % len = i + 1 := Nat.mod_eq_of_lt (by omega)
      simp [h1, hseq, h4, he, hpt]

theorem getD_eq_get (l : List String) (i : Nat) (h : i < l.length) :
    l.getD i "" = l.get ⟨i, h⟩ := by
  rw [List.getD_eq_getElem?_getD, List.getElem?_eq_getElem h]
  simp

/-- The one-step unfolding of `get_music_fuel` at a positive fuel value. -/
theorem get_music_fuel_succ (ex : String → Bool) (pt : Nat) (dir cur : String)
    (fuel : Nat) (pl : List String) :
    get_music_fuel ex pt dir cur (fuel + 1) pl =
      if pl.length = 0 then (pl, "")
      else
        match compute_new_index pt dir pl.length ((listIndex cur pl).getD 0) with
        | none => (pl, "")
        | some ni =>
          let name := pl.getD ni ""
          if ex name then (pl, name)
          else get_music_fuel ex pt dir cur fuel (pl.eraseIdx ni) := rfl

/-- One advance of `get_music` in a fully-present playlist, in any
non-sequential mode: the returned track is the one at the cyclically
incremented index of the first occurrence of the current track. -/
theorem get_music_step_all_exist (ex : String → Bool) (pt : Nat) (cur : String)
    (pl : List String) (hex : ∀ x ∈ pl, ex x = true) (hpt : pt ≠ PLAY_TYPE_SEQ)
    (i : Nat) (hi : listIndex cur pl = some i)
    (h : (i + 1) % pl.length < pl.length) :
    get_music ex pt "next" cur pl = (pl, pl.get ⟨(i + 1) % pl.length, h⟩) := by
  have hlen : 0 < pl.length := lt_of_le_of_lt (Nat.zero_le _) h
  have hilt : i < pl.length := listIndex_lt_length cur pl i hi
  cases pl with
  | nil => simp at hlen
  | cons x xs =>
    have hu0 : get_music ex pt "next" cur (x :: xs) =
        get_music_fuel ex pt "next" cur (xs.length + 1) (x :: xs) := rfl
    rw [hu0, get_music_fuel_succ]
    rw [if_neg (by simp : ¬((x :: xs).length = 0))]
    rw [hi]
    simp only [Option.getD_some]
    rw [compute_new_index_cyclic pt ((x :: xs).length) i hlen hilt hpt]
    have hmem : (x :: xs).get ⟨(i + 1) % (x :: xs).length, h⟩ ∈ x :: xs :=
      List.get_mem _ _ _
    simp only [getD_eq_get (x :: xs) ((i + 1) % (x :: xs).length) h, hex _ hmem, if_true]

/-- Iterating the advance from the track at index `i` lands on the track at
index `(i + k) % len` (duplicate-free, fully-present playlist, any
non-sequential mode). -/
theorem get_music_iterate (ex : String → Bool) (pt : Nat) (pl : List String)
    (hnd : pl.Nodup) (hex : ∀ x ∈ pl, ex x = true) (hpt : pt ≠ PLAY_TYPE_SEQ)
    (k : Nat) : ∀ (i : Nat) (hi : i < pl.length),
    (fun c => (get_music ex pt "next" c pl).2)^[k] (pl.get ⟨i, hi⟩) =
      pl.get ⟨(i + k) % pl.length, Nat.mod_lt _ (lt_of_le_of_lt (Nat.zero_le _) hi)⟩ := by
  induction k with
  | zero =>
    intro i hi
    simp [Nat.mod_eq_of_lt hi]
  | succ k ih =>
    intro i hi
    have hstep :
        (get_music ex pt "next" (pl.get ⟨i, hi⟩) pl).2 =
          pl.get ⟨(i + 1) % pl.length,
            Nat.mod_lt _ (lt_of_le_of_lt (Nat.zero_le _) hi)⟩ := by
      rw [get_music_step_all_exist ex pt (pl.get ⟨i, hi⟩) pl hex hpt i
        (listIndex_of_nodup_get pl hnd i hi) (Nat.mod_lt _ (lt_of_le_of_lt (Nat.zero_le _) hi))]
    rw [Function.iterate_succ_apply]
    simp only [hstep]
    rw [ih ((i + 1) % pl.length) (Nat.mod_lt _ (lt_of_le_of_lt (Nat.zero_le _) hi))]
    congr 1
    apply Fin.ext
    show ((i + 1) % pl.length + k) % pl.length = (i + (k + 1)) % pl.length
    rw [Nat.mod_add_mod]
    ring_nf

/-- C1 (amended). For a duplicate-free playlist all of whose tracks are
present in the catalog: in every mode except sequential, applying the
next-track selection `len(playlist)` times starting from any track of the
playlist returns to that track; in sequential mode, if the playlist has at
least two tracks, advancing from the track at the last index returns the
empty string (no wraparound). -/
theorem get_music_cyclic_and_seq_end (ex : String → Bool) (pt : Nat)
    (pl : List String) (cur : String)
    (hnd : pl.Nodup) (hex : ∀ x ∈ pl, ex x = true) :
    (cur ∈ pl → pt ≠ PLAY_TYPE_SEQ →
      (fun c => (get_music ex pt "next" c pl).2)^[pl.length] cur = cur) ∧
    (∀ h2 : 2 ≤ pl.length,
      get_music ex PLAY_TYPE_SEQ "next" (pl.get ⟨pl.length - 1, by omega⟩) pl = (pl, "")) := by
  constructor
  · intro hcur hpt
    obtain ⟨i, hi⟩ := Option.isSome_iff_exists.mp (listIndex_isSome_of_mem hcur)
    have hilt : i < pl.length := listIndex_lt_length cur pl i hi
    have hget : pl.get ⟨i, hilt⟩ = cur := listIndex_get cur pl i hi hilt
    rw [← hget]
    rw [get_music_iterate ex pt pl hnd hex hpt pl.length i hilt]
    congr 1
    apply Fin.ext
    show (i + pl.length) % pl.length = i
    rw [Nat.add_mod_right]
    exact Nat.mod_eq_of_lt hilt
  · intro h2
    have hlast : pl.length - 1 < pl.length := by omega
    have hidx : listIndex (pl.get ⟨pl.length - 1, hlast⟩) pl = some (pl.length - 1) :=
      listIndex_of_nodup_get pl hnd _ hlast
    cases pl with
    | nil => simp at h2
    | cons x xs =>
      have hu0 : get_music ex PLAY_TYPE_SEQ "next"
            ((x :: xs).get ⟨(x :: xs).length - 1, hlast⟩) (x :: xs) =
          get_music_fuel ex PLAY_TYPE_SEQ "next"
            ((x :: xs).get ⟨(x :: xs).length - 1, hlast⟩) (xs.length + 1) (x :: xs) := rfl
      rw [hu0, get_music_fuel_succ]
      rw [if_neg (by simp : ¬((x :: xs).length = 0))]
      rw [hidx]
      simp only [Option.getD_some]
      have hcni : compute_new_index PLAY_TYPE_SEQ "next" ((x :: xs).length)
          ((x :: xs).length - 1) = none := by
        unfold compute_new_index
        have h1 : ¬((x :: xs).length = 1) := by
          simp only [List.length_cons] at h2 ⊢
          omega
        have hc : PLAY_TYPE_SEQ = PLAY_TYPE_SEQ ∧
            (x :: xs).length ≤ ((x :: xs).length - 1) + 1 :=
          ⟨rfl, by omega⟩
        have h1x : xs ≠ [] := by
          intro he
          subst he
          simp at h2
        simp [h1, hc, h1x]
      rw [hcni]

/-- The claim of C1 as stated is false on the code: (a) with a playlist
containing a duplicated name, `len(playlist)` advances in loop-all mode do
not return to the start (because `list.index` always finds the first
occurrence); (b) in sequential mode a one-element playlist never signals
end-of-list, because `get_music` keeps the index unchanged whenever
`len(playlist) == 1`, so advancing from the last index returns the track
instead of the empty string. -/
theorem get_music_cyclic_counterexample :
    ((fun c => (get_music (fun _ => true) PLAY_TYPE_ALL "next" c ["a", "a", "b"]).2)^[3] "b"
        ≠ "b") ∧
    ((get_music (fun _ => true) PLAY_TYPE_SEQ "next" "a" ["a"]).2 ≠ "") := by
  decide

/-- Witness for C1 (amended): a concrete two-track playlist, loop-all mode
cycles back after two advances, sequential mode ends after the last track. -/
theorem get_music_cyclic_and_seq_end_witness :
    ((fun c => (get_music (fun _ => true) PLAY_TYPE_ALL "next" c ["a", "b"]).2)^[2] "a"
        = "a") ∧
    (get_music (fun _ => true) PLAY_TYPE_SEQ "next" (["a", "b"].get ⟨1, by decide⟩)
        ["a", "b"] = (["a", "b"], "")) :=
  ⟨(get_music_cyclic_and_seq_end (fun _ => true) PLAY_TYPE_ALL ["a", "b"] "a"
      (by decide) (by decide)).1 (by decide) (by decide),
   (get_music_cyclic_and_seq_end (fun _ => true) PLAY_TYPE_SEQ ["a", "b"] ""
      (by decide) (by decide)).2 (by decide)⟩

theorem get_music_fuel_safe (ex : String → Bool) (pt : Nat) (dir cur : String) :
    ∀ (fuel : Nat) (pl : List String),
      ((get_music_fuel ex pt dir cur fuel pl).1.Sublist pl) ∧
      ((get_music_fuel ex pt dir cur fuel pl).2 ≠ "" →
        ex (get_music_fuel ex pt dir cur fuel pl).2 = true) ∧
      ((∀ x ∈ pl, ex x = false) → (get_music_fuel ex pt dir cur fuel pl).2 = "") := by
  intro fuel
  induction fuel with
  | zero =>
    intro pl
    refine ⟨List.Sublist.refl pl, ?_, ?_⟩ <;> simp [get_music_fuel]
  | succ fuel ih =>
    intro pl
    rw [get_music_fuel_succ]
    by_cases h0 : pl.length = 0
    · rw [if_pos h0]
      exact ⟨List.Sublist.refl pl, by simp, by simp⟩
    · rw [if_neg h0]
      cases hc : compute_new_index pt dir pl.length ((listIndex cur pl).getD 0) with
      | none =>
        exact ⟨List.Sublist.refl pl, by simp, by simp⟩
      | some ni =>
        have hni : ni < pl.length := by
          apply compute_new_index_lt pt dir pl.length ((listIndex cur pl).getD 0)
            (Nat.pos_of_ne_zero h0) _ ni hc
          cases hidx : listIndex cur pl with
          | none => simpa [hidx] using Nat.pos_of_ne_zero h0
          | some j => simpa [hidx] using listIndex_lt_length cur pl j hidx
        simp only []
        by_cases hx : ex (pl.getD ni "") = true
        · rw [if_pos hx]
          refine ⟨List.Sublist.refl pl, fun _ => hx, ?_⟩
          intro hall
          have hmem : pl.getD ni "" ∈ pl := by
            rw [getD_eq_get pl ni hni]
            exact List.get_mem _ _ _
          have := hall _ hmem
          rw [hx] at this
          exact absurd this (by simp)
        · rw [if_neg hx]
          obtain ⟨ha, hb, hcc⟩ := ih (pl.eraseIdx ni)
          refine ⟨ha.trans (List.eraseIdx_sublist pl ni), hb, ?_⟩
          intro hall
          exact hcc fun x hx2 => hall x ((List.eraseIdx_sublist pl ni).mem hx2)

/-- C6. `get_music` never fails: the playlist it leaves behind is a
sublist of the input playlist (only catalog-missing tracks are pruned); any
non-empty name it returns passes the catalog-existence check; if every
track of the playlist is missing, repeated pruning still terminates with
the empty-string result; and whenever the track at the computed
next/previous index is missing, the call equals a retry in the same
direction on the playlist with that entry removed. -/
theorem get_music_prunes_missing_safely (ex : String → Bool) (pt : Nat)
    (dir cur : String) (pl : List String) :
    ((get_music ex pt dir cur pl).1.Sublist pl) ∧
    ((get_music ex pt dir cur pl).2 ≠ "" → ex (get_music ex pt dir cur pl).2 = true) ∧
    ((∀ x ∈ pl, ex x = false) → (get_music ex pt dir cur pl).2 = "") ∧
    (∀ ni : Nat, pl.length ≠ 0 →
      compute_new_index pt dir pl.length ((listIndex cur pl).getD 0) = some ni →
      ex (pl.getD ni "") = false →
      get_music ex pt dir cur pl = get_music ex pt dir cur (pl.eraseIdx ni)) := by
  obtain ⟨ha, hb, hcc⟩ := get_music_fuel_safe ex pt dir cur pl.length pl
  refine ⟨ha, hb, hcc, ?_⟩
  intro ni h0 hc hx
  have hni : ni < pl.length := by
    apply compute_new_index_lt pt dir pl.length ((listIndex cur pl).getD 0)
      (Nat.pos_of_ne_zero h0) _ ni hc
    cases hidx : listIndex cur pl with
    | none => simpa [hidx] using Nat.pos_of_ne_zero h0
    | some j => simpa [hidx] using listIndex_lt_length cur pl j hidx
  have hlen : (pl.eraseIdx ni).length = pl.length - 1 := by
    rw [List.length_eraseIdx]
    simp [hni]
  cases pl with
  | nil => simp at h0
  | cons x xs =>
    show get_music_fuel ex pt dir cur (xs.length + 1) (x :: xs) = _
    rw [get_music_fuel_succ]
    rw [if_neg h0, hc]
    simp only [hx, Bool.false_eq_true, if_false]
    unfold get_music
    rw [hlen]
    rfl

/-- Witness for C6: a playlist whose every track is catalog-missing is
pruned track by track, the call returns the empty string, and the first
step equals the retry on the pruned playlist. -/
theorem get_music_prunes_missing_safely_witness :
    ((get_music (fun _ => false) PLAY_TYPE_ALL "next" "a" ["a", "b"]).2 = "") ∧
    (get_music (fun _ => false) PLAY_TYPE_ALL "next" "a" ["a", "b"] =
      get_music (fun _ => false) PLAY_TYPE_ALL "next" "a" (["a", "b"].eraseIdx 1)) :=
  ⟨(get_music_prunes_missing_safely (fun _ => false) PLAY_TYPE_ALL "next" "a"
      ["a", "b"]).2.2.1 (by decide),
   (get_music_prunes_missing_safely (fun _ => false) PLAY_TYPE_ALL "next" "a"
      ["a", "b"]).2.2.2 1 (by decide) (by decide) (by decide)⟩

/-! ## `utils.custom_sort_key` (numeric-aware ordering key)

`custom_sort_key` maps a name to a Python tuple: `(0, numeric_prefix, s)`
when the name starts with digits, `(1, stem, numeric_suffix)` when it only
ends with digits, `(2, s)` otherwise; `sort` compares these tuples
lexicographically.  We model `\d` as the ASCII digits appearing in track
file names. -/

def digitsToNat (ds : List Char) : Nat :=
  ds.foldl (fun acc c => acc * 10 + (c.toNat - 48)) 0

/-- `re.match(r"^(\d+)", s)` followed by `int(...)`. -/
def digitPrefixVal (s : String) : Option Nat :=
  let ds := s.data.takeWhile Char.isDigit
  if ds.isEmpty then none else some (digitsToNat ds)

/-- The trailing digit run of `re.search(r"(\d+)$", s)`. -/
def digitSuffix (s : String) : List Char :=
  (s.data.reverse.takeWhile Char.isDigit).reverse

def digitSuffixVal (s : String) : Option Nat :=
  if (digitSuffix s).isEmpty then none else some (digitsToNat (digitSuffix s))

/-- `s[: suffix_match.start()]` — the name with its digit suffix removed. -/
def stemBeforeSuffix (s : String) : List Char :=
  s.data.take (s.data.length - (digitSuffix s).length)

/-- Python string `<` (lexicographic on code points). -/
def charListLt : List Char → List Char → Bool
  | [], [] => false
  | [], _ :: _ => true
  | _ :: _, [] => false
  | a :: as, b :: bs => if a < b then true else if b < a then false else charListLt as bs

/-- The three tuple shapes `custom_sort_key` can return. -/
inductive SortKey : Type
  | pre (n : Nat) (s : List Char)
  | suf (stem : List Char) (n : Nat)
  | plain (s : List Char)

def custom_sort_key (s : String) : SortKey :=
  match digitPrefixVal s with
  | some n => SortKey.pre n s.data
  | none =>
    match digitSuffixVal s with
    | some n => SortKey.suf (stemBeforeSuffix s) n
    | none => SortKey.plain s.data

/-- Python `<` on the key tuples (the first component is the constructor
tag, so cross-shape comparisons never reach the heterogeneous slots). -/
def sortKeyLt : SortKey → SortKey → Bool
  | SortKey.pre n s, SortKey.pre m t =>
    n < m || (n = m && charListLt s t)
  | SortKey.pre _ _, SortKey.suf _ _ => true
  | SortKey.pre _ _, SortKey.plain _ => true
  | SortKey.suf _ _, SortKey.pre _ _ => false
  | SortKey.suf s n, SortKey.suf t m =>
    charListLt s t || (s = t && n < m)
  | SortKey.suf _ _, SortKey.plain _ => true
  | SortKey.plain _, SortKey.pre _ _ => false
  | SortKey.plain _, SortKey.suf _ _ => false
  | SortKey.plain s, SortKey.plain t => charListLt s t

/-- `a` may stay before `b` in the stable ascending sort by
`custom_sort_key` (Python `sort` only asks `key(b) < key(a)`). -/
def custom_sort_le (a b : String) : Bool :=
  !(sortKeyLt (custom_sort_key b) (custom_sort_key a))

example : pySort custom_sort_le ["10.mp3", "2.mp3"] = ["2.mp3", "10.mp3"] := by decide

/-! ## `XiaoMusicDevice.update_playlist`

Embeds the method as a function of the global playlist map
(`xiaomusic.music_list`), the device's current playlist name
(`device.cur_playlist`) and its materialized list (`self._play_list`);
`random.shuffle` is the parameter `shuffle`; `none` models the `KeyError`
Python would raise if the final list name were absent from the map. -/

/-- The name-fixing phase of `update_playlist` (everything before
`self._play_list = copy.copy(self.xiaomusic.music_list[list_name])`):
returns the updated global map and the final list name. -/
def update_playlist_step1 (music_list : List (String × List String))
    (cur_playlist : String) (play_list : List String) :
    List (String × List String) × String :=
  if cur_playlist = "臨時搜索列表" ∧ play_list ≠ [] then
    (dictInsert music_list "臨時搜索列表" play_list, cur_playlist)
  else if (cur_playlist = "臨時搜索列表" ∧ play_list = []) ∨
      (dictGet music_list cur_playlist).isNone then
    (music_list, "全部")
  else (music_list, cur_playlist)

def update_playlist (shuffle : List String → List String) (play_type : Nat)
    (reorder : Bool) (music_list : List (String × List String))
    (cur_playlist : String) (play_list : List String) :
    Option (List (String × List String) × String × List String) :=
  let s1 := update_playlist_step1 music_list cur_playlist play_list
  match dictGet s1.1 s1.2 with
  | none => none
  | some base =>
    let newpl :=
      if reorder then
        if play_type = PLAY_TYPE_RND then shuffle base
        else pySort custom_sort_le base
      else base
    some (s1.1, s1.2, newpl)

theorem update_playlist_step1_spec (music_list : List (String × List String))
    (cur_playlist : String) (play_list : List String)
    (hall : (dictGet music_list "全部").isSome) :
    (dictGet (update_playlist_step1 music_list cur_playlist play_list).1
      (update_playlist_step1 music_list cur_playlist play_list).2).isSome ∧
    (cur_playlist ≠ "臨時搜索列表" → (dictGet music_list cur_playlist).isNone →
      (update_playlist_step1 music_list cur_playlist play_list).2 = "全部") ∧
    (cur_playlist = "臨時搜索列表" → play_list = [] →
      (update_playlist_step1 music_list cur_playlist play_list).2 = "全部") := by
  unfold update_playlist_step1
  by_cases h1 : cur_playlist = "臨時搜索列表" ∧ play_list ≠ []
  · obtain ⟨hc, hp⟩ := h1
    subst hc
    rw [if_pos ⟨rfl, hp⟩]
    refine ⟨?_, ?_, ?_⟩
    · show (dictGet (dictInsert music_list "臨時搜索列表" play_list) "臨時搜索列表").isSome = true
      rw [dictGet_dictInsert_self]
      simp
    · intro hne
      exact absurd rfl hne
    · intro _ hpl
      exact absurd hpl hp
  · by_cases h2 : (cur_playlist = "臨時搜索列表" ∧ play_list = []) ∨
        (dictGet music_list cur_playlist).isNone
    · rw [if_neg h1, if_pos h2]
      exact ⟨hall, fun _ _ => rfl, fun _ _ => rfl⟩
    · rw [if_neg h1, if_neg h2]
      refine ⟨?_, ?_, ?_⟩
      · show (dictGet music_list cur_playlist).isSome = true
        cases hx : dictGet music_list cur_playlist with
        | none => exact absurd (Or.inr (by simp [hx])) h2
        | some v => simp
      · intro _ hnone
        exact absurd (Or.inr hnone) h2
      · intro hc hpl
        exact absurd (Or.inl ⟨hc, hpl⟩) h2

/-- C10. After `update_playlist` the device's current playlist name is a
valid key of the global playlist map (provided the all-tracks list `全部`
exists, as `_gen_all_music_list` guarantees): the call returns a value (no
`KeyError`), and whenever the stored name is unknown, or is the temporary
search list while the materialized list is empty, the name is silently
reset to `全部`. -/
theorem update_playlist_resets_to_valid_name (shuffle : List String → List String)
    (play_type : Nat) (reorder : Bool) (music_list : List (String × List String))
    (cur_playlist : String) (play_list : List String)
    (hall : (dictGet music_list "全部").isSome) :
    (update_playlist shuffle play_type reorder music_list cur_playlist play_list).isSome ∧
    (∀ ml' cur' pl',
      update_playlist shuffle play_type reorder music_list cur_playlist play_list =
        some (ml', cur', pl') →
      (dictGet ml' cur').isSome ∧
      (cur_playlist ≠ "臨時搜索列表" → (dictGet music_list cur_playlist).isNone →
        cur' = "全部") ∧
      (cur_playlist = "臨時搜索列表" → play_list = [] → cur' = "全部")) := by
  obtain ⟨hsome, hreset1, hreset2⟩ :=
    update_playlist_step1_spec music_list cur_playlist play_list hall
  obtain ⟨base, hbase⟩ := Option.isSome_iff_exists.mp hsome
  constructor
  · simp only [update_playlist]
    rw [hbase]
    simp
  · intro ml' cur' pl' heq
    simp only [update_playlist] at heq
    rw [hbase] at heq
    simp only [Option.some.injEq, Prod.mk.injEq] at heq
    obtain ⟨hml, hcur, -⟩ := heq
    subst hml
    subst hcur
    exact ⟨hbase ▸ hsome, hreset1, hreset2⟩

/-- Witness for C10: a device pointing at an unknown playlist name is reset
to `全部`, which is a valid key of the map. -/
theorem update_playlist_resets_to_valid_name_witness :
    (update_playlist (fun l => l) PLAY_TYPE_ALL true [("全部", ["a"])] "沒有這個歌單"
      []).isSome ∧
    (∀ ml' cur' pl',
      update_playlist (fun l => l) PLAY_TYPE_ALL true [("全部", ["a"])] "沒有這個歌單" [] =
        some (ml', cur', pl') →
      (dictGet ml' cur').isSome ∧
      ("沒有這個歌單" ≠ "臨時搜索列表" → (dictGet [("全部", ["a"])] "沒有這個歌單").isNone →
        cur' = "全部") ∧
      ("沒有這個歌單" = "臨時搜索列表" → ([] : List String) = [] → cur' = "全部")) :=
  update_playlist_resets_to_valid_name (fun l => l) PLAY_TYPE_ALL true
    [("全部", ["a"])] "沒有這個歌單" [] (by decide)

/-! ## The non-exact search branch of `XiaoMusicDevice._play`

When `exact=False` and title resolution returned the non-empty candidate
list `names`, `_play` runs

```
if len(names) > 1:
    self._play_list = names
    self.device.cur_playlist = "臨時搜索列表"
    self.update_playlist()
else:
    self._play_list = self._play_list + names
    self.device.cur_playlist = "臨時搜索列表"
    self.update_playlist(reorder=False)
```
-/

def play_update_search_list (shuffle : List String → List String) (play_type : Nat)
    (names play_list : List String) (music_list : List (String × List String)) :
    Option (List (String × List String) × String × List String) :=
  if 1 < names.length then
    update_playlist shuffle play_type true music_list "臨時搜索列表" names
  else
    update_playlist shuffle play_type false music_list "臨時搜索列表" (play_list ++ names)

/-- C8. In a non-exact play request: a single resolved candidate is
appended to the device's existing working playlist, which becomes the
temporary search list with no reordering; more than one candidate replaces
the working playlist wholesale with the candidate list (up to the mode's
reordering — a shuffle or the numeric-aware sort, both permutations), the
current playlist again becoming the temporary search list. -/
theorem play_nonexact_append_vs_replace (shuffle : List String → List String)
    (play_type : Nat) (names play_list : List String)
    (music_list : List (String × List String))
    (hn : names ≠ []) (hsh : ∀ l, (shuffle l).Perm l) :
    (names.length = 1 →
      play_update_search_list shuffle play_type names play_list music_list =
        some (dictInsert music_list "臨時搜索列表" (play_list ++ names),
          "臨時搜索列表", play_list ++ names)) ∧
    (1 < names.length →
      ∀ ml' cur' pl',
        play_update_search_list shuffle play_type names play_list music_list =
          some (ml', cur', pl') →
        ml' = dictInsert music_list "臨時搜索列表" names ∧ cur' = "臨時搜索列表" ∧
          pl'.Perm names) ∧
    (1 < names.length →
      (play_update_search_list shuffle play_type names play_list music_list).isSome) := by
  have happend : play_list ++ names ≠ [] := by
    intro he
    rcases List.append_eq_nil.mp he with ⟨-, h⟩
    exact hn h
  refine ⟨?_, ?_, ?_⟩
  · intro h1
    have hno : ¬(1 < names.length) := by omega
    have hstep : update_playlist_step1 music_list "臨時搜索列表" (play_list ++ names) =
        (dictInsert music_list "臨時搜索列表" (play_list ++ names), "臨時搜索列表") := by
      unfold update_playlist_step1
      rw [if_pos ⟨rfl, happend⟩]
    simp only [play_update_search_list, hno, if_false, update_playlist, hstep,
      dictGet_dictInsert_self]
    simp
  · intro h1 ml' cur' pl' heq
    have hstep : update_playlist_step1 music_list "臨時搜索列表" names =
        (dictInsert music_list "臨時搜索列表" names, "臨時搜索列表") := by
      unfold update_playlist_step1
      rw [if_pos ⟨rfl, hn⟩]
    simp only [play_update_search_list, h1, if_true, update_playlist, hstep,
      dictGet_dictInsert_self, Option.some.injEq, Prod.mk.injEq] at heq
    obtain ⟨hml, hcur, hpl⟩ := heq
    refine ⟨hml.symm, hcur.symm, ?_⟩
    rw [← hpl]
    by_cases hrnd : play_type = PLAY_TYPE_RND
    · simpa [hrnd] using hsh names
    · simpa [hrnd] using pySort_perm custom_sort_le names
  · intro h1
    have hstep : update_playlist_step1 music_list "臨時搜索列表" names =
        (dictInsert music_list "臨時搜索列表" names, "臨時搜索列表") := by
      unfold update_playlist_step1
      rw [if_pos ⟨rfl, hn⟩]
    simp [play_update_search_list, h1, update_playlist, hstep, dictGet_dictInsert_self]

/-- Witness for C8: single candidate `["x"]` is appended to `["a"]`; the
two-candidate list `["x", "b"]` replaces it (sorted by the numeric-aware
comparator in a non-shuffle mode). -/
theorem play_nonexact_append_vs_replace_witness :
    (play_update_search_list (fun l => l) PLAY_TYPE_ALL ["x"] ["a"] [] =
      some (dictInsert [] "臨時搜索列表" (["a"] ++ ["x"]), "臨時搜索列表", ["a"] ++ ["x"])) ∧
    (∀ ml' cur' pl',
      play_update_search_list (fun l => l) PLAY_TYPE_ALL ["x", "b"] ["a"] [] =
        some (ml', cur', pl') →
      ml' = dictInsert [] "臨時搜索列表" ["x", "b"] ∧ cur' = "臨時搜索列表" ∧
        pl'.Perm ["x", "b"]) :=
  ⟨(play_nonexact_append_vs_replace (fun l => l) PLAY_TYPE_ALL ["x"] ["a"] []
      (by decide) (fun l => List.Perm.refl l)).1 (by decide),
   (play_nonexact_append_vs_replace (fun l => l) PLAY_TYPE_ALL ["x", "b"] ["a"] []
      (by decide) (fun l => List.Perm.refl l)).2.1 (by decide)⟩

/-! ## `XiaoMusic.refresh_custom_play_list`

```
for k in list(self.music_list.keys()):
    if k not in self.default_music_list_names:
        del self.music_list[k]
custom_play_list = self.get_custom_play_list()
for k, v in custom_play_list.items():
    self.music_list[k] = list(v)
```
-/

def refresh_custom_play_list (music_list : List (String × List String))
    (default_names : List String) (custom : List (String × List String)) :
    List (String × List String) :=
  let ml := music_list.filter (fun p => p.1 ∈ default_names)
  custom.foldl (fun acc kv => dictInsert acc kv.1 kv.2) ml

theorem dictGet_foldl_insert_not_mem (custom : List (String × List String))
    (acc : List (String × List String)) (k : String)
    (hk : k ∉ custom.map Prod.fst) :
    dictGet (custom.foldl (fun acc kv => dictInsert acc kv.1 kv.2) acc) k =
      dictGet acc k := by
  induction custom generalizing acc with
  | nil => rfl
  | cons kv rest ih =>
    simp only [List.map_cons, List.mem_cons] at hk
    push_neg at hk
    rw [List.foldl_cons, ih (dictInsert acc kv.1 kv.2) hk.2,
      dictGet_dictInsert_ne acc kv.1 k kv.2 (fun he => hk.1 he.symm)]

theorem dictGet_foldl_insert_mem (custom : List (String × List String))
    (k : String) (v : List String)
    (hnd : (custom.map Prod.fst).Nodup) (hkv : (k, v) ∈ custom) :
    ∀ acc, dictGet (custom.foldl (fun acc kv => dictInsert acc kv.1 kv.2) acc) k =
      some v := by
  induction custom with
  | nil => simp at hkv
  | cons kv rest ih =>
    intro acc
    simp only [List.map_cons, List.nodup_cons] at hnd
    rcases List.mem_cons.mp hkv with heq | hmem
    · have hk1 : kv.1 = k := congrArg Prod.fst heq.symm
      have hk2 : kv.2 = v := congrArg Prod.snd heq.symm
      rw [List.foldl_cons,
        dictGet_foldl_insert_not_mem rest _ k (hk1 ▸ hnd.1),
        hk1, hk2, dictGet_dictInsert_self]
    · rw [List.foldl_cons]
      exact ih hnd.2 hmem (dictInsert acc kv.1 kv.2)

/-- C9 (amended). On merging the custom playlists into the shared
namespace, a custom playlist whose name collides with a built-in playlist
name wins the slot: after `refresh_custom_play_list` the entry under that
name is the custom list, not the built-in one (stated for any custom map
with duplicate-free keys, which every Python `dict` has). -/
theorem refresh_custom_play_list_custom_wins (music_list : List (String × List String))
    (default_names : List String) (custom : List (String × List String))
    (k : String) (v : List String)
    (hnd : (custom.map Prod.fst).Nodup) (hkv : (k, v) ∈ custom) :
    dictGet (refresh_custom_play_list music_list default_names custom) k = some v := by
  unfold refresh_custom_play_list
  exact dictGet_foldl_insert_mem custom k v hnd hkv _

/-- The claim of C9 as stated is false on the code: with built-in list
`全部 = ["a"]` (also a default name) and a custom playlist also named
`全部` with contents `["b"]`, the merged namespace maps `全部` to the
custom `["b"]`, not to the built-in `["a"]`. -/
theorem refresh_custom_play_list_counterexample :
    dictGet (refresh_custom_play_list [("全部", ["a"])] ["全部"] [("全部", ["b"])])
        "全部" = some ["b"] ∧
    dictGet (refresh_custom_play_list [("全部", ["a"])] ["全部"] [("全部", ["b"])])
        "全部" ≠ some ["a"] := by
  decide

/-- Witness for C9 (amended): the concrete collision above via the general
theorem. -/
theorem refresh_custom_play_list_custom_wins_witness :
    dictGet (refresh_custom_play_list [("全部", ["a"])] ["全部"] [("全部", ["b"])])
      "全部" = some ["b"] :=
  refresh_custom_play_list_custom_wins [("全部", ["a"])] ["全部"] [("全部", ["b"])]
    "全部" ["b"] (by decide) (by decide)

/-! ## The Matcher: `XiaoMusic.match_cmd` / `check_full_match_cmd`

The keyword table, priority order and allow-list live in the config; the
argument-before table `KEY_WORD_ARG_BEFORE_DICT` is a module constant of
`config.py`.  `re.match(rf"(.*){opkey}(.*)", query)` with greedy groups
splits the query around the last occurrence of `opkey` (the configured
keywords contain no regex metacharacters and queries no newlines). -/

def KEY_WORD_ARG_BEFORE_DICT : List String := ["分鐘後關機"]

structure MatchConfig : Type where
  key_match_order : List String
  key_word_dict : List (String × String)
  active_cmd : List String

/-- Split `haystack` around the LAST occurrence of `key` (what the greedy
`(.*)key(.*)` match produces); `none` when `key` does not occur. -/
def charSplitLast (key : List Char) : List Char → Option (List Char × List Char)
  | [] => if key.isEmpty then some ([], []) else none
  | c :: rest =>
    match charSplitLast key rest with
    | some (pre, post) => some (c :: pre, post)
    | none =>
      if key.isPrefixOf (c :: rest) then some ([], (c :: rest).drop key.length)
      else none

def pyStartsWith (s pre : String) : Bool :=
  pre.data.isPrefixOf s.data

def pyDropChars (s : String) (n : Nat) : String :=
  ⟨s.data.drop n⟩

def pySplitLast (key s : String) : Option (String × String) :=
  match charSplitLast key.data s.data with
  | some (pre, post) => some (⟨pre⟩, ⟨post⟩)
  | none => none

example : pySplitLast "分鐘後關機" "10分鐘後關機" = some ("10", "") := by decide
example : pySplitLast "一首" "下一首" = some ("下", "") := by decide
example : pySplitLast "關機" "下一首" = none := by decide

/-- The result of `match_cmd`: `(opvalue, oparg)`, the `(None, None)`
no-match pair, or the `AttributeError` Python raises when a keyword of
`key_match_order` is missing from `key_word_dict` (so `None.startswith`). -/
inductive MatchResult : Type
  | ok (action arg : String)
  | nomatch
  | error
deriving DecidableEq, Repr

/-- `XiaoMusic.check_full_match_cmd`. -/
def check_full_match_cmd (cfg : MatchConfig) (isplaying ctrl_panel : Bool)
    (query : String) : Option String :=
  if query ∈ cfg.key_match_order then
    let opvalue := dictGet cfg.key_word_dict query
    if ctrl_panel || isplaying then opvalue
    else if cfg.active_cmd.isEmpty ||
        (match opvalue with
         | some v => decide (v ∈ cfg.active_cmd)
         | none => false) then
      opvalue
    else none
  else none

/-- The `for opkey in self.config.key_match_order` loop of `match_cmd`. -/
def match_cmd_scan (cfg : MatchConfig) (isplaying ctrl_panel : Bool)
    (query : String) : List String → MatchResult
  | [] => MatchResult.nomatch
  | opkey :: rest =>
    match pySplitLast opkey query with
    | none => match_cmd_scan cfg isplaying ctrl_panel query rest
    | some (argpre, argafter) =>
      let oparg := if opkey ∈ KEY_WORD_ARG_BEFORE_DICT then argpre else argafter
      let opvalue := dictGet cfg.key_word_dict opkey
      if (!ctrl_panel) && (!isplaying) && (!cfg.active_cmd.isEmpty) &&
          !(match opvalue with
            | some v => decide (v ∈ cfg.active_cmd)
            | none => false) &&
          !(decide (opkey ∈ cfg.active_cmd)) then
        match_cmd_scan cfg isplaying ctrl_panel query rest
      else
        match opvalue with
        | none => MatchResult.error
        | some v =>
          if pyStartsWith v "exec#" then MatchResult.ok "exec" (pyDropChars v 5)
          else MatchResult.ok v oparg

/-- `XiaoMusic.match_cmd`. -/
def match_cmd (cfg : MatchConfig) (isplaying ctrl_panel : Bool)
    (query : String) : MatchResult :=
  match check_full_match_cmd cfg isplaying ctrl_panel query with
  | some v =>
    if v = "" then match_cmd_scan cfg isplaying ctrl_panel query cfg.key_match_order
    else if pyStartsWith v "exec#" then MatchResult.ok "exec" (pyDropChars v 5)
    else MatchResult.ok v ""
  | none => match_cmd_scan cfg isplaying ctrl_panel query cfg.key_match_order

/-- The source's keyword table restricted to the two keywords of the claim
(`config.py` maps `分鐘後關機` to `stop_after_minute` with
argument-before, and `下一首` to `play_next`). -/
def c4_config : MatchConfig :=
  { key_match_order := ["分鐘後關機", "下一首"]
    key_word_dict := [("分鐘後關機", "stop_after_minute"), ("下一首", "play_next")]
    active_cmd := [] }

/-- The same table extended with a keyword `一首` that is a substring of
`下一首` and is placed FIRST in the priority order. -/
def c4_config_substr : MatchConfig :=
  { key_match_order := ["一首", "分鐘後關機", "下一首"]
    key_word_dict :=
      [("一首", "play_prev"), ("分鐘後關機", "stop_after_minute"), ("下一首", "play_next")]
    active_cmd := [] }

/-- C4. For the claim's keyword table, the Matcher maps `10分鐘後關機` to
`(stop_after_minute, "10")` — the text before the argument-before keyword
is the argument — and the input `下一首`, being exactly a configured
keyword, maps to `(play_next, "")` through the exact-match fast path even
when another configured keyword (`一首`) is a substring of it and sits
earlier in the substring-scan priority order. -/
theorem match_cmd_examples :
    (match_cmd c4_config false true "10分鐘後關機" =
      MatchResult.ok "stop_after_minute" "10") ∧
    (match_cmd c4_config false true "下一首" = MatchResult.ok "play_next" "") ∧
    (match_cmd c4_config_substr false true "下一首" = MatchResult.ok "play_next" "") ∧
    (match_cmd_scan c4_config_substr false true "下一首"
        c4_config_substr.key_match_order = MatchResult.ok "play_prev" "") := by
  decide

/-! ## Fan-out failure handling in `XiaoMusicDevice._playmusic`

After `results = await self.group_player_play(url, name)` the method runs

```
if all(ele is None for ele in results):
    ...
    if (self.isplaying() and self._last_cmd != "stop"
            and self._play_failed_cnt < 10):
        self._play_failed_cnt = self._play_failed_cnt + 1
        await self._play_next()
    return
self._play_failed_cnt = 0
```

We embed this step as a function of the per-member outcomes (each member's
backend ack or `None`) and the relevant device fields, returning the new
fields and whether a retry (`_play_next`) is issued. -/

structure PlayFailCtx : Type where
  playing : Bool
  last_cmd : String
  play_failed_cnt : Nat
deriving DecidableEq, Repr

/-- `all(ele is None for ele in results)`. -/
def all_failed (results : List (Option String)) : Bool :=
  results.all (fun r => r.isNone)

def playmusic_after_fanout (results : List (Option String)) (s : PlayFailCtx) :
    PlayFailCtx × Bool :=
  if all_failed results then
    if s.playing && !(s.last_cmd == "stop") && decide (s.play_failed_cnt < 10) then
      ({ s with play_failed_cnt := s.play_failed_cnt + 1 }, true)
    else (s, false)
  else ({ s with play_failed_cnt := 0 }, false)

/-- C3 (amended). A group fan-out is treated as a total failure exactly
when every member's outcome is absent (`None`); any fan-out with at least
one non-`None` outcome resets the failure counter to zero and triggers no
retry; a total failure increments the counter by exactly 1 and issues a
retry exactly when the device is still playing, the last command was not
`stop`, and the counter is below 10 — otherwise it leaves the state
unchanged and does not retry; in particular a retry only ever happens
while the counter is below 10. -/
theorem playmusic_fanout_failure_policy (results : List (Option String))
    (s : PlayFailCtx) :
    (all_failed results = true ↔ ∀ r ∈ results, r = none) ∧
    (all_failed results = false →
      (playmusic_after_fanout results s).1.play_failed_cnt = 0 ∧
      (playmusic_after_fanout results s).2 = false) ∧
    (all_failed results = true →
      ((s.playing = true ∧ s.last_cmd ≠ "stop" ∧ s.play_failed_cnt < 10) →
        (playmusic_after_fanout results s).1.play_failed_cnt = s.play_failed_cnt + 1 ∧
        (playmusic_after_fanout results s).2 = true) ∧
      (¬(s.playing = true ∧ s.last_cmd ≠ "stop" ∧ s.play_failed_cnt < 10) →
        (playmusic_after_fanout results s).1 = s ∧
        (playmusic_after_fanout results s).2 = false)) ∧
    ((playmusic_after_fanout results s).2 = true → s.play_failed_cnt < 10) := by
  refine ⟨?_, ?_, ?_, ?_⟩
  · unfold all_failed
    rw [List.all_eq_true]
    constructor
    · intro h r hr
      exact Option.isNone_iff_eq_none.mp (h r hr)
    · intro h r hr
      rw [h r hr]
      rfl
  · intro hf
    unfold playmusic_after_fanout
    rw [hf]
    exact ⟨rfl, rfl⟩
  · intro hf
    constructor
    · intro ⟨hp, hl, hc⟩
      unfold playmusic_after_fanout
      rw [hf]
      have hcond : (s.playing && !(s.last_cmd == "stop") && decide (s.play_failed_cnt < 10)) =
          true := by
        simp [hp, hl, hc]
      rw [if_pos rfl, if_pos hcond]
      exact ⟨rfl, rfl⟩
    · intro hn
      unfold playmusic_after_fanout
      rw [hf]
      have hcond : (s.playing && !(s.last_cmd == "stop") && decide (s.play_failed_cnt < 10)) =
          false := by
        by_contra hcc
        rw [Bool.not_eq_false, Bool.and_eq_true, Bool.and_eq_true] at hcc
        obtain ⟨⟨hp, hls⟩, hclt⟩ := hcc
        apply hn
        refine ⟨hp, ?_, by simpa using hclt⟩
        intro he
        rw [he] at hls
        simp at hls
      rw [if_pos rfl, if_neg (by simp [hcond])]
      exact ⟨rfl, rfl⟩
  · intro hr
    unfold playmusic_after_fanout at hr
    by_cases hf : all_failed results
    · rw [if_pos hf] at hr
      by_cases hcond : (s.playing && !(s.last_cmd == "stop") &&
          decide (s.play_failed_cnt < 10)) = true
      · simpa using (Bool.and_eq_true _ _).mp hcond |>.2
      · rw [if_neg hcond] at hr
        simp at hr
    · rw [if_neg hf] at hr
      simp at hr

/-- The claim of C3 as stated is false on the code: at a failure counter of
10 (still playing, last command not `stop`), a 3-member total failure does
not increment the counter by 1 — the counter stays at 10 and no retry is
issued. -/
theorem playmusic_fanout_counterexample :
    all_failed [none, none, none] = true ∧
    (playmusic_after_fanout [none, none, none]
      { playing := true, last_cmd := "play", play_failed_cnt := 10 }).1.play_failed_cnt
        = 10 ∧
    (playmusic_after_fanout [none, none, none]
      { playing := true, last_cmd := "play", play_failed_cnt := 10 }).2 = false := by
  decide

/-- Witness for C3 (amended): a 3-member fan-out with one success is not a
total failure and resets the counter; an all-`None` fan-out at counter 3
increments it to 4 and retries. -/
theorem playmusic_fanout_failure_policy_witness :
    ((playmusic_after_fanout [none, some "ok", none]
        { playing := true, last_cmd := "play", play_failed_cnt := 7 }).1.play_failed_cnt
          = 0 ∧
      (playmusic_after_fanout [none, some "ok", none]
        { playing := true, last_cmd := "play", play_failed_cnt := 7 }).2 = false) ∧
    ((playmusic_after_fanout [none, none, none]
        { playing := true, last_cmd := "play", play_failed_cnt := 3 }).1.play_failed_cnt
          = 3 + 1 ∧
      (playmusic_after_fanout [none, none, none]
        { playing := true, last_cmd := "play", play_failed_cnt := 3 }).2 = true) :=
  ⟨(playmusic_fanout_failure_policy [none, some "ok", none]
      { playing := true, last_cmd := "play", play_failed_cnt := 7 }).2.1 (by decide),
   ((playmusic_fanout_failure_policy [none, none, none]
      { playing := true, last_cmd := "play", play_failed_cnt := 3 }).2.2.1
        (by decide)).1 (by decide)⟩

/-! ## The Resolver: `utils.find_best_match` / `XiaoMusic.find_real_music_name`

External collaborators are parameters: `norm` is
`traditional_to_simple(s.lower())` (OpenCC + Unicode lowercasing), `ratio`
is `difflib.SequenceMatcher(None, s, t).ratio()` (a rational in `[0,1]`,
`1` exactly on equal strings), `close` is `difflib.get_close_matches`, and
`shuffle` is `random.shuffle`; all live outside the repository.  `n` is a
Python int (`keyword_detection` compares it with `-1`). -/

/-- `{traditional_to_simple(item.lower()): item for item in collection}` —
a dict comprehension: insertion order of first key occurrence, later
values overwrite. -/
def buildLowerCollection (norm : String → String) (collection : List String) :
    List (String × String) :=
  collection.foldl (fun acc item => dictInsert acc (norm item) item) []

/-- `utils.keyword_detection`: split into substring matches (sorted by
similarity ratio to the input, descending, stable) and the rest. -/
def keyword_detection (ratio : String → String → ℚ) (user_input : String)
    (str_list : List String) (n : Int) : List String × List String :=
  let matched := str_list.filter (fun item => pySubstr user_input item)
  let remains := str_list.filter (fun item => !(pySubstr user_input item))
  let sorted := pySort
    (fun s t => decide (ratio t user_input ≤ ratio s user_input)) matched
  if n = -1 ∨ (sorted.length : Int) < n then (sorted, remains)
  else (sorted.take n.toNat, sorted.drop n.toNat ++ remains)

/-- `utils.real_search`. -/
def real_search (ratio : String → String → ℚ)
    (close : String → List String → Int → ℚ → List String)
    (prompt : String) (candidates : List String) (cutoff : ℚ) (n : Int) :
    List String :=
  let md := keyword_detection ratio prompt candidates n
  if (md.1.length : Int) < n then md.1 ++ close prompt md.2 n cutoff
  else md.1

/-- `utils.find_best_match`. -/
def find_best_match (norm : String → String) (ratio : String → String → ℚ)
    (close : String → List String → Int → ℚ → List String)
    (user_input : String) (collection : List String) (cutoff : ℚ) (n : Int)
    (extra_search_index : Option (List (String × String))) : List String :=
  let lower_collection := buildLowerCollection norm collection
  let ui := norm user_input
  let found := real_search ratio close ui (dictKeys lower_collection) cutoff n
  let cur := found.map (fun m => (dictGet lower_collection m).getD "")
  if (found.length : Int) ≥ n ∨ extra_search_index = none then cur.take n.toNat
  else
    let lower_extra := ((extra_search_index.getD []).filter
      (fun kv => decide (kv.2 ∉ cur))).foldl
        (fun acc kv => dictInsert acc (norm kv.1) kv.2) []
    let found2 := real_search ratio close ui (dictKeys lower_extra) cutoff n
    let cur2 := cur ++ found2.map (fun m => (dictGet lower_extra m).getD "")
    cur2.take n.toNat

/-- `XiaoMusic.find_real_music_name` (with `self.config.enable_fuzzy_match`,
`self.config.fuzzy_match_cutoff`, the catalog key list, and
`self._extra_index_search` as parameters). -/
def find_real_music_name (enable_fuzzy_match : Bool) (norm : String → String)
    (ratio : String → String → ℚ)
    (close : String → List String → Int → ℚ → List String)
    (shuffle : List String → List String) (cutoff : ℚ)
    (all_music_list : List String)
    (extra_search_index : Option (List (String × String)))
    (name : String) (n : Int) : List String :=
  if !enable_fuzzy_match then []
  else
    let real_names :=
      find_best_match norm ratio close name all_music_list cutoff n extra_search_index
    if real_names ≠ [] then
      if 1 < n ∧ name ∉ real_names then
        let wider := find_best_match norm ratio close name all_music_list cutoff
          (n * 2) extra_search_index
        (shuffle wider).take n.toNat
      else if name ∈ real_names then [name]
      else real_names
    else []

/-- A toy similarity ratio for concrete evaluation. -/
def eqRatio (s t : String) : ℚ := if s = t then 1 else 0

example :
    find_real_music_name true (fun s => s) eqRatio (fun _ _ _ _ => [])
      (fun l => l) 0 ["晴天", "晴天快乐"] (some []) "晴天" 1 = ["晴天"] := by
  decide

theorem pySort_pairwise {α : Type} (le : α → α → Bool)
    (htrans : ∀ a b c, le a b = true → le b c = true → le a c = true)
    (htot : ∀ a b, le a b || le b a) (l : List α) :
    (pySort le l).Pairwise (fun a b => le a b = true) := by
  induction l with
  | nil => simp [pySort]
  | cons x xs ih => exact pyInsert_pairwise le htrans htot x _ ih

/-- If every element that may be placed before `m` is `m` itself, the
stable sort puts `m` at the head. -/
theorem pySort_cons_of_dominant {α : Type} (le : α → α → Bool)
    (htrans : ∀ a b c, le a b = true → le b c = true → le a c = true)
    (htot : ∀ a b, le a b || le b a) (l : List α) (m : α)
    (hm : m ∈ l) (hdom : ∀ h ∈ l, le h m = true → h = m) :
    ∃ t, pySort le l = m :: t := by
  have hpair := pySort_pairwise le htrans htot l
  have hmem : m ∈ pySort le l := (pySort_perm le l).mem_iff.mpr hm
  cases hs : pySort le l with
  | nil =>
    rw [hs] at hmem
    simp at hmem
  | cons h t =>
    rw [hs] at hmem hpair
    have hin : h ∈ l := (pySort_perm le l).mem_iff.mp (hs ▸ List.mem_cons_self h t)
    rcases pairwise_head_le le h t hpair m hmem with heq | hle
    · exact ⟨t, by rw [heq]⟩
    · exact ⟨t, by rw [hdom h hin hle]⟩

theorem dictGet_mem_keys {β : Type} (d : List (String × β)) (k : String) (v : β)
    (h : dictGet d k = some v) : k ∈ dictKeys d := by
  induction d with
  | nil => simp [dictGet] at h
  | cons kv rest ih =>
    obtain ⟨k0, v0⟩ := kv
    by_cases h0 : k0 = k
    · simp [dictKeys, h0]
    · simp only [dictGet, h0, if_false] at h
      simp [dictKeys] at ih ⊢
      exact Or.inr (ih h)

theorem foldInsert_get_ne (norm : String → String) (k : String) :
    ∀ (l : List String) (acc : List (String × String)),
      (∀ x ∈ l, norm x ≠ k) →
      dictGet (l.foldl (fun acc item => dictInsert acc (norm item) item) acc) k =
        dictGet acc k := by
  intro l
  induction l with
  | nil => intro acc _; rfl
  | cons x xs ih =>
    intro acc hne
    rw [List.foldl_cons, ih (dictInsert acc (norm x) x)
      (fun y hy => hne y (List.mem_cons_of_mem x hy)),
      dictGet_dictInsert_ne acc (norm x) k x (hne x (List.mem_cons_self x xs))]

/-- In the dict comprehension, a key whose preimage under `norm` is the
single element `name` maps to `name`. -/
theorem buildGet_unique (norm : String → String) (name : String) :
    ∀ (l : List String) (acc : List (String × String)),
      (∀ x ∈ l, norm x = norm name → x = name) → name ∈ l →
      dictGet (l.foldl (fun acc item => dictInsert acc (norm item) item) acc)
        (norm name) = some name := by
  intro l
  induction l with
  | nil => intro acc _ hmem; simp at hmem
  | cons x xs ih =>
    intro acc huniq hmem
    by_cases hxs : name ∈ xs
    · rw [List.foldl_cons]
      exact ih (dictInsert acc (norm x) x)
        (fun y hy h => huniq y (List.mem_cons_of_mem x hy) h) hxs
    · have hx : x = name := by
        rcases List.mem_cons.mp hmem with h | h
        · exact h.symm
        · exact absurd h hxs
      subst hx
      rw [List.foldl_cons, foldInsert_get_ne norm (norm x) xs _ ?hne,
        dictGet_dictInsert_self]
      case hne =>
        intro y hy hcon
        exact hxs ((huniq y (List.mem_cons_of_mem x hy) hcon) ▸ hy)

theorem keyword_detection_exact (ratio : String → String → ℚ) (u : String)
    (l : List String) (hmem : u ∈ l) (hself : ratio u u = 1)
    (hlt : ∀ s, s ≠ u → ratio s u < 1) :
    (keyword_detection ratio u l 1).1 = [u] := by
  have htrans : ∀ a b c : String,
      (fun s t => decide (ratio t u ≤ ratio s u)) a b = true →
      (fun s t => decide (ratio t u ≤ ratio s u)) b c = true →
      (fun s t => decide (ratio t u ≤ ratio s u)) a c = true := by
    intro a b c hab hbc
    simp only [decide_eq_true_eq] at hab hbc ⊢
    exact le_trans hbc hab
  have htot : ∀ a b : String,
      ((fun s t => decide (ratio t u ≤ ratio s u)) a b ||
       (fun s t => decide (ratio t u ≤ ratio s u)) b a) = true := by
    intro a b
    simp only [Bool.or_eq_true, decide_eq_true_eq]
    exact le_total (ratio b u) (ratio a u)
  have humem : u ∈ l.filter (fun item => pySubstr u item) :=
    List.mem_filter.mpr ⟨hmem, pySubstr_self u⟩
  have hdom : ∀ h ∈ l.filter (fun item => pySubstr u item),
      (fun s t => decide (ratio t u ≤ ratio s u)) h u = true → h = u := by
    intro h _ hle
    simp only [decide_eq_true_eq] at hle
    by_contra hne
    have := hlt h hne
    rw [hself] at hle
    exact absurd (lt_of_lt_of_le this hle) (lt_irrefl _)
  obtain ⟨t, ht⟩ := pySort_cons_of_dominant
    (fun s t => decide (ratio t u ≤ ratio s u)) htrans htot
    (l.filter (fun item => pySubstr u item)) u humem hdom
  unfold keyword_detection
  simp only [ht]
  have hcond : ¬((1 : Int) = -1 ∨ (((u :: t).length : Int) < 1)) := by
    push_neg
    constructor
    · decide
    · simp only [List.length_cons]
      push_cast
      omega
  rw [if_neg hcond]
  simp

theorem find_best_match_exact (norm : String → String)
    (ratio : String → String → ℚ)
    (close : String → List String → Int → ℚ → List String)
    (cutoff : ℚ) (collection : List String)
    (extra : Option (List (String × String))) (name : String)
    (hmem : name ∈ collection)
    (huniq : ∀ x ∈ collection, norm x = norm name → x = name)
    (hself : ∀ s, ratio s s = 1)
    (hlt : ∀ s t, s ≠ t → ratio s t < 1) :
    find_best_match norm ratio close name collection cutoff 1 extra = [name] := by
  have hget : dictGet (buildLowerCollection norm collection) (norm name) = some name :=
    buildGet_unique norm name collection [] huniq hmem
  have hkey : norm name ∈ dictKeys (buildLowerCollection norm collection) :=
    dictGet_mem_keys _ _ _ hget
  have hkd : (keyword_detection ratio (norm name)
      (dictKeys (buildLowerCollection norm collection)) 1).1 = [norm name] :=
    keyword_detection_exact ratio (norm name) _ hkey (hself _)
      (fun s hs => hlt s (norm name) hs)
  have hrs : real_search ratio close (norm name)
      (dictKeys (buildLowerCollection norm collection)) cutoff 1 = [norm name] := by
    unfold real_search
    simp only [hkd]
    norm_num
  unfold find_best_match
  simp only [hrs]
  simp [hget]

/-- C7. With fuzzy matching enabled and a single best match requested
(`n = 1`), if the literal input is itself a catalog key (and nothing else
in the catalog normalizes to the same string), the Resolver returns
exactly that literal, preferred over every other candidate — for any
similarity ratio that is `1` exactly on equal strings and below `1`
otherwise, which `difflib`'s is. -/
theorem find_real_music_name_exact_preferred (norm : String → String)
    (ratio : String → String → ℚ)
    (close : String → List String → Int → ℚ → List String)
    (shuffle : List String → List String) (cutoff : ℚ)
    (collection : List String) (extra : Option (List (String × String)))
    (name : String)
    (hmem : name ∈ collection)
    (huniq : ∀ x ∈ collection, norm x = norm name → x = name)
    (hself : ∀ s, ratio s s = 1)
    (hlt : ∀ s t, s ≠ t → ratio s t < 1) :
    find_real_music_name true norm ratio close shuffle cutoff collection extra
      name 1 = [name] := by
  have hfb := find_best_match_exact norm ratio close cutoff collection extra name
    hmem huniq hself hlt
  unfold find_real_music_name
  rw [hfb]
  have h1 : ¬((1 : Int) < 1 ∧ name ∉ [name]) := by
    intro h
    exact absurd h.1 (by decide)
  simp [h1]

/-- Witness for C7: catalog `{晴天, 晴天快乐}`, query `晴天`, `n = 1` —
the literal is returned even though the toy ratio used here ranks only
exact matches positively; the spec example instantiated. -/
theorem find_real_music_name_exact_preferred_witness :
    find_real_music_name true (fun s => s) eqRatio (fun _ _ _ _ => [])
      (fun l => l) 0 ["晴天", "晴天快乐"] (some []) "晴天" 1 = ["晴天"] :=
  find_real_music_name_exact_preferred (fun s => s) eqRatio (fun _ _ _ _ => [])
    (fun l => l) 0 ["晴天", "晴天快乐"] (some []) "晴天" (by decide) (by decide)
    (fun s => by simp [eqRatio])
    (fun s t h => by simp [eqRatio, h])

/-! ## The per-device timer discipline as a transition system

Per device: `_next_timer` / `_stop_timer` (the stored asyncio task handle,
as an `Option` over task ids), `_playing`, `_last_cmd`.  Globally we track
the set of LIVE tasks — created and neither cancelled nor fired — as lists
of (task id, owning device id) pairs, one list per timer kind, plus a
fresh-id counter.  `group did` is the device-id list of `did`'s group
(`XiaoMusic.groups`, in which `update_devices` always places the device
itself).  Each operation mirrors one method of `XiaoMusicDevice`; the
external effects (tts, backend stop, playback) do not touch timer state
and are omitted. -/

structure DevTimers : Type where
  next_timer : Option Nat
  stop_timer : Option Nat
  playing : Bool
  last_cmd : String

structure SysState : Type where
  devs : String → DevTimers
  live_next : List (Nat × String)
  live_stop : List (Nat × String)
  fresh : Nat

def initDev : DevTimers :=
  { next_timer := none, stop_timer := none, playing := false, last_cmd := "" }

def initState : SysState :=
  { devs := fun _ => initDev, live_next := [], live_stop := [], fresh := 0 }

/-- `XiaoMusicDevice.cancel_next_timer`: cancel the stored task (it is no
longer live) and clear the handle; a missing handle is a no-op. -/
def cancel_next_timer (did : String) (s : SysState) : SysState :=
  match (s.devs did).next_timer with
  | some t =>
    { devs := fun d => if d = did then
        { s.devs d with next_timer := none } else s.devs d
      live_next := s.live_next.filter (fun p => !(p.1 == t && p.2 == did))
      live_stop := s.live_stop
      fresh := s.fresh }
  | none => s

/-- `XiaoMusicDevice.set_next_music_timeout`: always cancels the previous
timer first, then creates and stores a fresh task. -/
def set_next_music_timeout (did : String) (s : SysState) : SysState :=
  let s1 := cancel_next_timer did s
  { devs := fun d => if d = did then
      { s1.devs d with next_timer := some s1.fresh } else s1.devs d
    live_next := (s1.fresh, did) :: s1.live_next
    live_stop := s1.live_stop
    fresh := s1.fresh + 1 }

/-- `XiaoMusicDevice.cancel_group_next_timer`. -/
def cancel_group_next_timer (group : String → List String) (did : String)
    (s : SysState) : SysState :=
  (group did).foldl (fun acc d => cancel_next_timer d acc) s

/-- `XiaoMusicDevice.stop`: records the command, clears the playing flag,
cancels the next-timers of the whole group; it does NOT touch
`_stop_timer`. -/
def stop (group : String → List String) (did : String) (s : SysState) : SysState :=
  let s1 := { s with devs := fun d => if d = did then
    { s.devs d with playing := false, last_cmd := "stop" } else s.devs d }
  cancel_group_next_timer group did s1

/-- `XiaoMusicDevice.stop_after_minute`: cancels any previous shutdown
timer, then creates and stores a fresh one. -/
def stop_after_minute (did : String) (s : SysState) : SysState :=
  let s1 : SysState :=
    match (s.devs did).stop_timer with
    | some t =>
      { devs := fun d => if d = did then
          { s.devs d with stop_timer := none } else s.devs d
        live_next := s.live_next
        live_stop := s.live_stop.filter (fun p => !(p.1 == t && p.2 == did))
        fresh := s.fresh }
    | none => s
  { devs := fun d => if d = did then
      { s1.devs d with stop_timer := some s1.fresh } else s1.devs d
    live_next := s1.live_next
    live_stop := (s1.fresh, did) :: s1.live_stop
    fresh := s1.fresh + 1 }

/-- The timer effects of `XiaoMusicDevice._playmusic`: cancel the previous
timers of all group members, mark playing, and — when the fan-out
succeeded and a positive duration was resolved — schedule the
auto-advance timer. -/
def playmusic_timers (group : String → List String) (did : String)
    (schedule : Bool) (s : SysState) : SysState :=
  let s1 := cancel_group_next_timer group did s
  let s2 := { s1 with devs := fun d => if d = did then
    { s1.devs d with playing := true } else s1.devs d }
  if schedule then set_next_music_timeout did s2 else s2

/-- The auto-advance timer elapsing: the task completes (stops being
live); its body sees the stored handle, clears it, and then drives
`_play_next` (whose own timer effects are separate `playmusic_timers`
steps in a trace). -/
def fire_next_timer (did : String) (t : Nat) (s : SysState) : SysState :=
  if (s.devs did).next_timer = some t ∧ (t, did) ∈ s.live_next then
    { devs := fun d => if d = did then
        { s.devs d with next_timer := none } else s.devs d
      live_next := s.live_next.filter (fun p => !(p.1 == t && p.2 == did))
      live_stop := s.live_stop
      fresh := s.fresh }
  else s

/-- The shutdown timer elapsing: the task completes; its body calls
`stop` (a separate step) but never clears `_stop_timer`. -/
def fire_stop_timer (did : String) (t : Nat) (s : SysState) : SysState :=
  if (t, did) ∈ s.live_stop then
    { devs := s.devs
      live_next := s.live_next
      live_stop := s.live_stop.filter (fun p => !(p.1 == t && p.2 == did))
      fresh := s.fresh }
  else s

inductive Op : Type
  | cancelNext (did : String)
  | setTimeout (did : String)
  | cancelGroup (did : String)
  | stopOp (did : String)
  | stopAfter (did : String)
  | playMusic (did : String) (schedule : Bool)
  | fireNext (did : String) (t : Nat)
  | fireStop (did : String) (t : Nat)

def step (group : String → List String) : Op → SysState → SysState
  | Op.cancelNext did => cancel_next_timer did
  | Op.setTimeout did => set_next_music_timeout did
  | Op.cancelGroup did => cancel_group_next_timer group did
  | Op.stopOp did => stop group did
  | Op.stopAfter did => stop_after_minute did
  | Op.playMusic did schedule => playmusic_timers group did schedule
  | Op.fireNext did t => fire_next_timer did t
  | Op.fireStop did t => fire_stop_timer did t

/-- States reachable from startup by any interleaving of the device
operations. -/
inductive Reachable (group : String → List String) : SysState → Prop
  | init : Reachable group initState
  | step {s : SysState} (op : Op) : Reachable group s → Reachable group (step group op s)

/-- The timer bookkeeping invariant: every live auto-advance task is the
one stored in its owner's handle, live task ids are pairwise distinct and
below the fresh counter. -/
def TimerInv (s : SysState) : Prop :=
  (∀ p ∈ s.live_next, (s.devs p.2).next_timer = some p.1) ∧
  (∀ p ∈ s.live_next, p.1 < s.fresh) ∧
  s.live_next.Nodup

/-- `cancel_next_timer` only touches the owner's `next_timer` handle and
the `live_next` list. -/
theorem cancel_next_timer_fields (did d : String) (s : SysState) :
    (((cancel_next_timer did s).devs d).stop_timer = (s.devs d).stop_timer ∧
     ((cancel_next_timer did s).devs d).playing = (s.devs d).playing ∧
     ((cancel_next_timer did s).devs d).last_cmd = (s.devs d).last_cmd) ∧
    (cancel_next_timer did s).live_stop = s.live_stop ∧
    (cancel_next_timer did s).fresh = s.fresh := by
  unfold cancel_next_timer
  cases (s.devs did).next_timer with
  | none => exact ⟨⟨rfl, rfl, rfl⟩, rfl, rfl⟩
  | some t =>
    by_cases h : d = did <;> simp [h]

theorem cancel_next_timer_handle_self (did : String) (s : SysState) :
    ((cancel_next_timer did s).devs did).next_timer = none := by
  unfold cancel_next_timer
  cases h : (s.devs did).next_timer with
  | none => exact h
  | some t => simp

theorem cancel_next_timer_handle_other (did d : String) (s : SysState)
    (h : d ≠ did) : ((cancel_next_timer did s).devs d).next_timer =
      (s.devs d).next_timer := by
  unfold cancel_next_timer
  cases (s.devs did).next_timer with
  | none => rfl
  | some t => simp [h]

theorem inv_cancel_next_timer (did : String) (s : SysState) (hInv : TimerInv s) :
    TimerInv (cancel_next_timer did s) := by
  obtain ⟨ha, hb, hc⟩ := hInv
  unfold cancel_next_timer
  cases hh : (s.devs did).next_timer with
  | none => exact ⟨ha, hb, hc⟩
  | some t =>
    refine ⟨?_, ?_, ?_⟩
    · intro p hp
      rw [List.mem_filter] at hp
      obtain ⟨hmem, hpred⟩ := hp
      have hne : p.2 ≠ did := by
        intro he
        have := ha p hmem
        rw [he, hh] at this
        have ht : p.1 = t := by
          injection this.symm
        simp [ht, he] at hpred
      simp only [hne, if_false]
      exact ha p hmem
    · intro p hp
      exact hb p (List.mem_filter.mp hp).1
    · exact hc.filter _

/-- Under the invariant, a cancel leaves no live auto-advance task owned
by the cancelled device. -/
theorem cancel_next_timer_no_owned (did : String) (s : SysState)
    (hInv : TimerInv s) :
    ∀ p ∈ (cancel_next_timer did s).live_next, p.2 ≠ did := by
  intro p hp he
  have hhandle : (((cancel_next_timer did s).devs p.2)).next_timer = some p.1 :=
    (inv_cancel_next_timer did s hInv).1 p hp
  rw [he, cancel_next_timer_handle_self did s] at hhandle
  exact Option.noConfusion hhandle

theorem inv_set_next_music_timeout (did : String) (s : SysState)
    (hInv : TimerInv s) : TimerInv (set_next_music_timeout did s) := by
  have hInv1 := inv_cancel_next_timer did s hInv
  have hno := cancel_next_timer_no_owned did s hInv
  obtain ⟨ha, hb, hc⟩ := hInv1
  unfold set_next_music_timeout
  refine ⟨?_, ?_, ?_⟩
  · intro p hp
    rcases List.mem_cons.mp hp with rfl | hp
    · simp
    · have hne : p.2 ≠ did := hno p hp
      simp only [hne, if_false]
      exact ha p hp
  · intro p hp
    rcases List.mem_cons.mp hp with rfl | hp
    · simp
    · exact Nat.lt_succ_of_lt (hb p hp)
  · refine List.nodup_cons.mpr ⟨?_, hc⟩
    intro hmem
    exact absurd rfl (Nat.ne_of_lt (hb _ hmem))

theorem inv_fold_cancel (l : List String) :
    ∀ (s : SysState), TimerInv s →
      TimerInv (l.foldl (fun acc d => cancel_next_timer d acc) s) := by
  induction l with
  | nil => intro s h; exact h
  | cons x xs ih =>
    intro s h
    rw [List.foldl_cons]
    exact ih _ (inv_cancel_next_timer x s h)

theorem inv_cancel_group_next_timer (group : String → List String) (did : String)
    (s : SysState) (hInv : TimerInv s) :
    TimerInv (cancel_group_next_timer group did s) :=
  inv_fold_cancel (group did) s hInv

theorem inv_stop (group : String → List String) (did : String) (s : SysState)
    (hInv : TimerInv s) : TimerInv (stop group did s) := by
  obtain ⟨ha, hb, hc⟩ := hInv
  apply inv_cancel_group_next_timer
  refine ⟨?_, hb, hc⟩
  intro p hp
  by_cases h : p.2 = did
  · simp only [h, if_true]
    exact h ▸ ha p hp
  · simp only [h, if_false]
    exact ha p hp

theorem inv_stop_after_minute (did : String) (s : SysState)
    (hInv : TimerInv s) : TimerInv (stop_after_minute did s) := by
  obtain ⟨ha, hb, hc⟩ := hInv
  unfold stop_after_minute
  cases hh : (s.devs did).stop_timer with
  | none =>
    refine ⟨?_, ?_, hc⟩
    · intro p hp
      by_cases h : p.2 = did
      · simp only [h, if_true]
        exact h ▸ ha p hp
      · simp only [h, if_false]
        exact ha p hp
    · intro p hp
      exact Nat.lt_succ_of_lt (hb p hp)
  | some t =>
    refine ⟨?_, ?_, hc⟩
    · intro p hp
      by_cases h : p.2 = did
      · simp only [h, if_true]
        exact h ▸ ha p hp
      · simp only [h, if_false]
        exact ha p hp
    · intro p hp
      exact Nat.lt_succ_of_lt (hb p hp)

theorem inv_playmusic_timers (group : String → List String) (did : String)
    (schedule : Bool) (s : SysState) (hInv : TimerInv s) :
    TimerInv (playmusic_timers group did schedule s) := by
  have h1 := inv_cancel_group_next_timer group did s hInv
  obtain ⟨ha, hb, hc⟩ := h1
  have h2 : TimerInv { cancel_group_next_timer group did s with
      devs := fun d => if d = did then
        { (cancel_group_next_timer group did s).devs d with playing := true }
      else (cancel_group_next_timer group did s).devs d } := by
    refine ⟨?_, hb, hc⟩
    intro p hp
    by_cases h : p.2 = did
    · simp only [h, if_true]
      exact h ▸ ha p hp
    · simp only [h, if_false]
      exact ha p hp
  unfold playmusic_timers
  by_cases hs : schedule
  · rw [if_pos hs]
    exact inv_set_next_music_timeout did _ h2
  · rw [if_neg hs]
    exact h2

theorem inv_fire_next_timer (did : String) (t : Nat) (s : SysState)
    (hInv : TimerInv s) : TimerInv (fire_next_timer did t s) := by
  obtain ⟨ha, hb, hc⟩ := hInv
  unfold fire_next_timer
  by_cases hcond : (s.devs did).next_timer = some t ∧ (t, did) ∈ s.live_next
  · rw [if_pos hcond]
    refine ⟨?_, ?_, hc.filter _⟩
    · intro p hp
      rw [List.mem_filter] at hp
      obtain ⟨hmem, hpred⟩ := hp
      have hne : p.2 ≠ did := by
        intro he
        have := ha p hmem
        rw [he, hcond.1] at this
        have ht : p.1 = t := by
          injection this.symm
        simp [ht, he] at hpred
      simp only [hne, if_false]
      exact ha p hmem
    · intro p hp
      exact hb p (List.mem_filter.mp hp).1
  · rw [if_neg hcond]
    exact ⟨ha, hb, hc⟩

theorem inv_fire_stop_timer (did : String) (t : Nat) (s : SysState)
    (hInv : TimerInv s) : TimerInv (fire_stop_timer did t s) := by
  obtain ⟨ha, hb, hc⟩ := hInv
  unfold fire_stop_timer
  by_cases hcond : (t, did) ∈ s.live_stop
  · rw [if_pos hcond]
    exact ⟨ha, hb, hc⟩
  · rw [if_neg hcond]
    exact ⟨ha, hb, hc⟩

theorem inv_step (group : String → List String) (op : Op) (s : SysState)
    (hInv : TimerInv s) : TimerInv (step group op s) := by
  cases op with
  | cancelNext did => exact inv_cancel_next_timer did s hInv
  | setTimeout did => exact inv_set_next_music_timeout did s hInv
  | cancelGroup did => exact inv_cancel_group_next_timer group did s hInv
  | stopOp did => exact inv_stop group did s hInv
  | stopAfter did => exact inv_stop_after_minute did s hInv
  | playMusic did schedule => exact inv_playmusic_timers group did schedule s hInv
  | fireNext did t => exact inv_fire_next_timer did t s hInv
  | fireStop did t => exact inv_fire_stop_timer did t s hInv

theorem inv_reachable (group : String → List String) (s : SysState)
    (h : Reachable group s) : TimerInv s := by
  induction h with
  | init => exact ⟨by simp [initState], by simp [initState], by simp [initState]⟩
  | step op _ ih => exact inv_step group op _ ih

theorem length_le_one_of_all_eq {α : Type} (l : List α) (hnd : l.Nodup)
    (hall : ∀ p ∈ l, ∀ q ∈ l, p = q) : l.length ≤ 1 := by
  cases l with
  | nil => simp
  | cons x xs =>
    cases xs with
    | nil => simp
    | cons y ys =>
      have : x = y := hall x (by simp) y (by simp)
      rw [List.nodup_cons] at hnd
      exact absurd (this ▸ List.mem_cons_self y ys) hnd.1

/-- In any invariant state, at most one live auto-advance task is owned by
any one device. -/
theorem single_next_timer_of_inv (s : SysState) (hInv : TimerInv s)
    (did : String) :
    (s.live_next.filter (fun p => p.2 == did)).length ≤ 1 := by
  obtain ⟨ha, _, hc⟩ := hInv
  apply length_le_one_of_all_eq
  · exact hc.filter _
  · intro p hp q hq
    rw [List.mem_filter] at hp hq
    have hp2 : p.2 = did := by simpa using hp.2
    have hq2 : q.2 = did := by simpa using hq.2
    have h1 := ha p hp.1
    have h2 := ha q hq.1
    rw [hp2] at h1
    rw [hq2] at h2
    rw [h1] at h2
    have h3 : p.1 = q.1 := by injection h2
    obtain ⟨p1, p2⟩ := p
    obtain ⟨q1, q2⟩ := q
    simp only at h3 hp2 hq2
    rw [h3, hp2, hq2]

/-- C5. In every state reachable by any interleaving of the device
operations — each scheduling site cancels the stored timer before creating
a new one, and every playback start first cancels the previous timers of
all group members — every device owns at most one live auto-advance timer. -/
theorem device_has_at_most_one_next_timer (group : String → List String)
    (s : SysState) (h : Reachable group s) (did : String) :
    (s.live_next.filter (fun p => p.2 == did)).length ≤ 1 :=
  single_next_timer_of_inv s (inv_reachable group s h) did

/-- Witness for C5: after scheduling twice in a row on device `d` (each
call cancelling its predecessor), exactly one live timer remains. -/
theorem device_has_at_most_one_next_timer_witness :
    ((step (fun _ => ["d"]) (Op.setTimeout "d")
        (step (fun _ => ["d"]) (Op.setTimeout "d") initState)).live_next.filter
      (fun p => p.2 == "d")).length ≤ 1 :=
  device_has_at_most_one_next_timer (fun _ => ["d"]) _
    (Reachable.step (Op.setTimeout "d")
      (Reachable.step (Op.setTimeout "d") Reachable.init)) "d"

theorem fold_cancel_live_stop (l : List String) :
    ∀ s : SysState,
      (l.foldl (fun acc d => cancel_next_timer d acc) s).live_stop = s.live_stop := by
  induction l with
  | nil => intro s; rfl
  | cons x xs ih =>
    intro s
    rw [List.foldl_cons, ih (cancel_next_timer x s),
      (cancel_next_timer_fields x x s).2.1]

theorem stop_live_stop (group : String → List String) (did : String) (s : SysState) :
    (stop group did s).live_stop = s.live_stop := by
  unfold stop cancel_group_next_timer
  rw [fold_cancel_live_stop]

theorem cancel_preserves_none (d' d : String) (s : SysState)
    (h : (s.devs d).next_timer = none) :
    ((cancel_next_timer d' s).devs d).next_timer = none := by
  by_cases he : d = d'
  · subst he
    exact cancel_next_timer_handle_self d s
  · rw [cancel_next_timer_handle_other d' d s he]
    exact h

theorem fold_cancel_preserves_none (l : List String) :
    ∀ (s : SysState) (d : String), (s.devs d).next_timer = none →
      ((l.foldl (fun acc d => cancel_next_timer d acc) s).devs d).next_timer = none := by
  induction l with
  | nil => intro s d h; exact h
  | cons x xs ih =>
    intro s d h
    rw [List.foldl_cons]
    exact ih (cancel_next_timer x s) d (cancel_preserves_none x d s h)

theorem fold_cancel_handle_none (l : List String) :
    ∀ (s : SysState) (d : String), d ∈ l →
      ((l.foldl (fun acc d => cancel_next_timer d acc) s).devs d).next_timer = none := by
  induction l with
  | nil => intro s d h; simp at h
  | cons x xs ih =>
    intro s d h
    rw [List.foldl_cons]
    by_cases he : d = x
    · subst he
      exact fold_cancel_preserves_none xs (cancel_next_timer d s) d
        (cancel_next_timer_handle_self d s)
    · rcases List.mem_cons.mp h with h1 | h1
      · exact absurd h1 he
      · exact ih (cancel_next_timer x s) d h1

/-- After `stop`, every group member's auto-advance handle is cleared. -/
theorem stop_handle_none (group : String → List String) (did : String)
    (s : SysState) (d : String) (hd : d ∈ group did) :
    ((stop group did s).devs d).next_timer = none := by
  unfold stop cancel_group_next_timer
  exact fold_cancel_handle_none (group did) _ d hd

theorem fold_cancel_playing_last (l : List String) :
    ∀ (s : SysState) (d : String),
      ((l.foldl (fun acc d => cancel_next_timer d acc) s).devs d).playing =
        (s.devs d).playing ∧
      ((l.foldl (fun acc d => cancel_next_timer d acc) s).devs d).last_cmd =
        (s.devs d).last_cmd ∧
      ((l.foldl (fun acc d => cancel_next_timer d acc) s).devs d).stop_timer =
        (s.devs d).stop_timer := by
  induction l with
  | nil => intro s d; exact ⟨rfl, rfl, rfl⟩
  | cons x xs ih =>
    intro s d
    rw [List.foldl_cons]
    obtain ⟨h1, h2, h3⟩ := ih (cancel_next_timer x s) d
    obtain ⟨⟨f1, f2, f3⟩, -, -⟩ := cancel_next_timer_fields x d s
    exact ⟨h1.trans f2, h2.trans f3, h3.trans f1⟩

theorem stop_playing_last (group : String → List String) (did : String)
    (s : SysState) :
    ((stop group did s).devs did).playing = false ∧
    ((stop group did s).devs did).last_cmd = "stop" := by
  unfold stop cancel_group_next_timer
  obtain ⟨h1, h2, -⟩ := fold_cancel_playing_last (group did)
    { s with devs := fun d => if d = did then
        { s.devs d with playing := false, last_cmd := "stop" } else s.devs d } did
  constructor
  · rw [h1]
    simp
  · rw [h2]
    simp

theorem cancel_next_timer_noop (d : String) (s : SysState)
    (h : (s.devs d).next_timer = none) : cancel_next_timer d s = s := by
  unfold cancel_next_timer
  rw [h]

theorem fold_cancel_noop (l : List String) :
    ∀ s : SysState, (∀ d ∈ l, (s.devs d).next_timer = none) →
      l.foldl (fun acc d => cancel_next_timer d acc) s = s := by
  induction l with
  | nil => intro s _; rfl
  | cons x xs ih =>
    intro s h
    rw [List.foldl_cons, cancel_next_timer_noop x s (h x (List.mem_cons_self x xs))]
    exact ih s (fun d hd => h d (List.mem_cons_of_mem x hd))

theorem devtimers_eta (x : DevTimers) (h1 : x.playing = false)
    (h2 : x.last_cmd = "stop") :
    { x with playing := false, last_cmd := "stop" } = x := by
  cases x
  simp only at h1 h2
  rw [h1, h2]

/-- C2 (amended). `stop` is idempotent on the timer state: a second
consecutive `stop` is exactly a no-op; after a `stop` no live auto-advance
timer is owned by any member of the device's group (the device included,
since it always belongs to its own group); but `stop` never cancels the
shutdown timer scheduled by `stop_after_minute` — the set of live shutdown
timers is untouched. -/
theorem stop_twice_noop_next_only (group : String → List String) (did : String)
    (s : SysState) (hInv : TimerInv s) :
    stop group did (stop group did s) = stop group did s ∧
    (∀ p ∈ (stop group did s).live_next, p.2 ∉ group did) ∧
    (stop group did s).live_stop = s.live_stop := by
  refine ⟨?_, ?_, stop_live_stop group did s⟩
  · have hpl := stop_playing_last group did s
    have hdevs : (fun d => if d = did then
        { (stop group did s).devs d with playing := false, last_cmd := "stop" }
        else (stop group did s).devs d) = (stop group did s).devs := by
      funext d
      by_cases h : d = did
      · subst h
        rw [if_pos rfl]
        exact devtimers_eta _ hpl.1 hpl.2
      · rw [if_neg h]
    show cancel_group_next_timer group did
      { stop group did s with devs := fun d => if d = did then
          { (stop group did s).devs d with playing := false, last_cmd := "stop" }
          else (stop group did s).devs d } = stop group did s
    rw [hdevs]
    exact fold_cancel_noop (group did) (stop group did s)
      (fun d hd => stop_handle_none group did s d hd)
  · intro p hp hmem
    have hInv' := inv_stop group did s hInv
    have hhandle := hInv'.1 p hp
    rw [stop_handle_none group did s p.2 hmem] at hhandle
    exact Option.noConfusion hhandle

/-- The claim of C2 as stated is false on the code: `stop` does not cancel
the shutdown timer. Starting from a fresh device, `stop_after_minute`
schedules stop-task 0; after calling `stop` twice, task 0 is still live
and still stored in `_stop_timer`. (The auto-advance part of the claim
does hold — `live_next` is empty.) -/
theorem stop_leaves_stop_timer_counterexample :
    (stop (fun _ => ["d"]) "d" (stop (fun _ => ["d"]) "d"
        (stop_after_minute "d" initState))).live_stop = [(0, "d")] ∧
    ((stop (fun _ => ["d"]) "d" (stop (fun _ => ["d"]) "d"
        (stop_after_minute "d" initState))).devs "d").stop_timer = some 0 ∧
    (stop (fun _ => ["d"]) "d" (stop (fun _ => ["d"]) "d"
        (stop_after_minute "d" initState))).live_next = [] := by
  decide

/-- Witness for C2 (amended), at the state with a freshly scheduled
shutdown timer. -/
theorem stop_twice_noop_next_only_witness :
    stop (fun _ => ["d"]) "d" (stop (fun _ => ["d"]) "d"
        (stop_after_minute "d" initState)) =
      stop (fun _ => ["d"]) "d" (stop_after_minute "d" initState) ∧
    (∀ p ∈ (stop (fun _ => ["d"]) "d"
        (stop_after_minute "d" initState)).live_next, p.2 ∉ (fun _ => ["d"]) p.2) ∧
    (stop (fun _ => ["d"]) "d" (stop_after_minute "d" initState)).live_stop =
      (stop_after_minute "d" initState).live_stop := by
  have hInv : TimerInv (stop_after_minute "d" initState) := by
    have hln : (stop_after_minute "d" initState).live_next =
        ([] : List (Nat × String)) := rfl
    refine ⟨?_, ?_, ?_⟩ <;> rw [hln] <;> simp
  have h := stop_twice_noop_next_only (fun _ => ["d"]) "d"
    (stop_after_minute "d" initState) hInv
  refine ⟨h.1, ?_, h.2.2⟩
  intro p hp
  exact h.2.1 p hp

end XiaoMusic







